import Mathlib

/-!
Verification development for the YouTube transcript analyzer.

This file gives a shallow embedding of the player-name correction pipeline
of the application (file `5.py`): the transcript cleaner, the fuzzy
name corrector built on fuzzywuzzy's `process.extractOne` with the
`fuzz.token_set_ratio` scorer (whose string core is difflib's
`SequenceMatcher`), the roster cache loader, the roster fetcher's
error-recovery skeleton, and the season-label computation.  Theorems at the
end settle the specification claims against this embedding.

Unicode notes on faithfulness: the Lean character predicates used below
(`Char.isUpper`, `Char.isLower`, `Char.isAlpha`, `Char.isDigit`,
`Char.toLower`) implement the ASCII case rules, which agree with Python
exactly on the ASCII range.  The application's corrector only ever receives
ASCII text, because `clean_transcript` removes every character above
U+007F before `correct_player_names` runs.  Python's whitespace class
(shared by `str.strip`, `str.split` and the regex class used in
`clean_transcript`) is embedded in full, including the non-ASCII
whitespace code points, so `clean_transcript` itself is modelled exactly
on arbitrary input.
-/

set_option maxRecDepth 200000

/-- Python whitespace (`Py_UNICODE_ISSPACE`): the character class used by
`str.strip`, `str.split()` and by the regex class in the pattern
`\s+` of `clean_transcript`.  Covers the ASCII whitespace characters
(space, 0x09-0x0D, 0x1C-0x1F) and the Unicode space code points. -/
def pyIsSpace (c : Char) : Bool :=
  let n := c.toNat
  n == 32 || (9 ≤ n && n ≤ 13) || (28 ≤ n && n ≤ 31) ||
  n == 0x85 || n == 0xA0 || n == 0x1680 ||
  (0x2000 ≤ n && n ≤ 0x200A) ||
  n == 0x2028 || n == 0x2029 || n == 0x202F || n == 0x205F || n == 0x3000

/-- Python `str.strip()` on a character list: drop leading and trailing
whitespace. -/
def pyStrip (l : List Char) : List Char :=
  ((l.dropWhile pyIsSpace).reverse.dropWhile pyIsSpace).reverse

/-- Worker for the regex substitution `re.sub(r'\s+', ' ', text)`:
each maximal run of whitespace characters is replaced by a single space.
The boolean records whether the previous character was whitespace (i.e.
whether we are inside a run that has already emitted its space). -/
def collapseAux : List Char → Bool → List Char
  | [], _ => []
  | c :: rest, prevSpace =>
    if pyIsSpace c then
      if prevSpace then collapseAux rest true
      else ' ' :: collapseAux rest true
    else c :: collapseAux rest false

/-- The regex substitution `re.sub(r'\s+', ' ', text)`. -/
def collapseWS (l : List Char) : List Char := collapseAux l false

/-- The regex substitution `re.sub(r'[^\x00-\x7F]+', '', text)`: delete
every character above U+007F. -/
def removeNonAscii (l : List Char) : List Char :=
  l.filter (fun c => c.toNat ≤ 0x7F)

/-- Source `clean_transcript` (5.py lines 214-218): strip, collapse
whitespace runs to one space, then delete the characters above U+007F —
in that order. -/
def clean_transcript (text : String) : String :=
  ⟨removeNonAscii (collapseWS (pyStrip text.data))⟩

/-- Worker for Python `str.split()` (split on whitespace runs, dropping
empty pieces); `acc` holds the characters of the current word in reverse. -/
def splitAux : List Char → List Char → List (List Char)
  | [], acc => if acc.isEmpty then [] else [acc.reverse]
  | c :: rest, acc =>
    if pyIsSpace c then
      if acc.isEmpty then splitAux rest [] else acc.reverse :: splitAux rest []
    else splitAux rest (c :: acc)

/-- Python `str.split()` with no argument, as used by
`transcript.split()` in `correct_player_names` and by `.split()` inside
fuzzywuzzy's token-set scorer. -/
def pySplitStr (s : String) : List String :=
  (splitAux s.data []).map (fun w => ⟨w⟩)

/-- Worker for Python `" ".join(words)` at the character level. -/
def joinW : List (List Char) → List Char
  | [] => []
  | [w] => w
  | w :: ws => w ++ ' ' :: joinW ws

/-- Python `" ".join(words)`. -/
def joinWords (ws : List String) : String :=
  ⟨joinW (ws.map String.data)⟩

/-- State machine of CPython `str.istitle()` (the guard
`word.istitle()` in `correct_player_names`): upper-case letters may only
follow uncased characters, lower-case letters may only follow cased
characters, and at least one cased character must occur.  `prevCased`
tracks whether the previous character was cased, `cased` whether any
cased character has been seen.  ASCII case predicates (see header). -/
def istitleAux : List Char → Bool → Bool → Bool
  | [], _, cased => cased
  | c :: rest, prevCased, cased =>
    if c.isUpper then
      if prevCased then false else istitleAux rest true true
    else if c.isLower then
      if prevCased then istitleAux rest true true else false
    else istitleAux rest false cased

/-- Python `str.istitle()`. -/
def istitle (s : String) : Bool := istitleAux s.data false false

/-- Regex word character `\w` for the ASCII range: letter, digit or
underscore (fuzzywuzzy replaces every `\W` character by a space). -/
def isWordChar (c : Char) : Bool := c.isAlpha || c.isDigit || c == '_'

/-- fuzzywuzzy `utils.full_process(s, force_ascii=True)`:
`asciidammit` deletes the code points U+0080-U+00FF, then every
non-word character is replaced by a space, the string is lower-cased and
stripped.  (Replacement and lower-casing commute with fusing them into
one pass, since `\w` membership is case-insensitive.) -/
def full_process (s : String) : String :=
  let l := s.data.filter (fun c => !((128 ≤ c.toNat) && (c.toNat ≤ 255)))
  ⟨pyStrip (l.map (fun c => if isWordChar c then c.toLower else ' '))⟩

/-- Python string comparison: lexicographic by code point, a strict
prefix ordering below its extensions. -/
def lexLt : List Char → List Char → Bool
  | [], [] => false
  | [], _ :: _ => true
  | _ :: _, [] => false
  | a :: as, b :: bs =>
    if a.toNat < b.toNat then true
    else if b.toNat < a.toNat then false
    else lexLt as bs

/-- Insert a string into an ascending sorted list under Python's string
order. -/
def sortInsert (s : String) : List String → List String
  | [] => [s]
  | t :: ts => if lexLt s.data t.data then s :: t :: ts else t :: sortInsert s ts

/-- Python `sorted` on a list of (distinct) strings. -/
def sortStrings (l : List String) : List String := l.foldr sortInsert []

/-- Length of the longest common prefix of two character lists (helper
for difflib's longest-match search). -/
def matchLenAux : List Char → List Char → Nat
  | a :: as, b :: bs => if a = b then matchLenAux as bs + 1 else 0
  | _, _ => 0

/-- Length of the longest match of `a` and `b` starting at positions
`i`, `j`, confined to `a[i:ahi]` and `b[j:bhi]`. -/
def matchAt (a b : List Char) (ahi bhi i j : Nat) : Nat :=
  matchLenAux ((a.drop i).take (ahi - i)) ((b.drop j).take (bhi - j))

/-- difflib `SequenceMatcher.find_longest_match(alo, ahi, blo, bhi)` with
no junk elements (the strings scored here are far below the 200-character
threshold at which difflib's autojunk heuristic activates): the longest
block `a[i:i+k] == b[j:j+k]` inside the window, and among blocks of
maximal size the one with smallest `i`, then smallest `j` — which is
exactly the block difflib's bottom-up scan records last, since its
update fires at the first window position (in ascending ending-position
order) whose common-suffix length reaches the maximum.  Returns
`(alo, blo, 0)` when the window shares no block, as difflib does. -/
def find_longest_match (a b : List Char) (alo ahi blo bhi : Nat) :
    Nat × Nat × Nat :=
  (List.range' alo (ahi - alo)).foldl (fun best i =>
    (List.range' blo (bhi - blo)).foldl (fun best j =>
      let k := matchAt a b ahi bhi i j
      if best.2.2 < k then (i, j, k) else best) best) (alo, blo, 0)

/-- Total size of the matching blocks difflib
`SequenceMatcher.get_matching_blocks` finds in the window, i.e. the sum
of the `k` of the recursive longest-match decomposition.  The first
argument is fuel: every recursive call shrinks the combined window size
`(ahi - alo) + (bhi - blo)` by at least one, so any fuel beyond that sum
computes the true total. -/
def matchingBlocksTotal :
    Nat → List Char → List Char → Nat → Nat → Nat → Nat → Nat
  | 0, _, _, _, _, _, _ => 0
  | fuel + 1, a, b, alo, ahi, blo, bhi =>
    let r := find_longest_match a b alo ahi blo bhi
    let i := r.1; let j := r.2.1; let k := r.2.2
    if k = 0 then 0
    else
      k + (if alo < i ∧ blo < j then
             matchingBlocksTotal fuel a b alo i blo j else 0)
        + (if i + k < ahi ∧ j + k < bhi then
             matchingBlocksTotal fuel a b (i + k) ahi (j + k) bhi else 0)

/-- Number of matching elements `M` used by difflib
`SequenceMatcher.ratio()`. -/
def matchesTotal (a b : List Char) : Nat :=
  matchingBlocksTotal (a.length + b.length + 1) a b 0 a.length 0 b.length

/-- Python `int(round(num / den))` for a non-negative fraction, i.e.
round-half-to-even (requires `den > 0`).  fuzzywuzzy's
`utils.intr(100 * m.ratio())` computes this in floating point; for the
string lengths that can occur here the float never falls on the wrong
side of a half-integer boundary, so exact rational rounding agrees. -/
def bankerRound (num den : Nat) : Nat :=
  let q := num / den
  let r := num % den
  if 2 * r < den then q
  else if den < 2 * r then q + 1
  else if q % 2 = 0 then q else q + 1

/-- fuzzywuzzy `fuzz.ratio(s1, s2)` on already-processed strings: the
`check_empty_string` decorator returns 0 when either string is empty,
otherwise `int(round(100 * 2M / (len(s1) + len(s2))))` with `M` the
total matching-block size of difflib's `SequenceMatcher`. -/
def fuzz_ratio (s1 s2 : List Char) : Nat :=
  if s1.isEmpty || s2.isEmpty then 0
  else bankerRound (200 * matchesTotal s1 s2) (s1.length + s2.length)

/-- fuzzywuzzy `fuzz.token_set_ratio(s1, s2)` (default
`force_ascii=True, full_process=True`): full-process both strings,
return 0 if either processes to empty; otherwise split both into token
sets, and take the maximum of the pairwise `fuzz.ratio` scores of
`sorted-intersection`, `sorted-intersection + sorted-rest-of-s1` and
`sorted-intersection + sorted-rest-of-s2` (each joined by single spaces
and stripped). -/
def token_set_ratio (s1 s2 : String) : Nat :=
  let p1 := full_process s1
  let p2 := full_process s2
  if p1.data.isEmpty then 0
  else if p2.data.isEmpty then 0
  else
    let tokens1 := (pySplitStr p1).dedup
    let tokens2 := (pySplitStr p2).dedup
    let sect := tokens1.filter (fun t => tokens2.contains t)
    let d12 := tokens1.filter (fun t => !tokens2.contains t)
    let d21 := tokens2.filter (fun t => !tokens1.contains t)
    let sorted_sect := joinWords (sortStrings sect)
    let combined_1to2 : String :=
      ⟨pyStrip (sorted_sect ++ " " ++ joinWords (sortStrings d12)).data⟩
    let combined_2to1 : String :=
      ⟨pyStrip (sorted_sect ++ " " ++ joinWords (sortStrings d21)).data⟩
    let ss : String := ⟨pyStrip sorted_sect.data⟩
    max (max (fuzz_ratio ss.data combined_1to2.data)
             (fuzz_ratio ss.data combined_2to1.data))
        (fuzz_ratio combined_1to2.data combined_2to1.data)

/-- Python exception kinds that escape the functions modelled here. -/
inductive PyExc where
  | typeError
  | keyError
  | valueError
deriving DecidableEq

/-- fuzzywuzzy `process.extractOne(query, choices,
scorer=fuzz.token_set_ratio)`: score every choice with
`token_set_ratio(query, choice)` and return the first choice attaining
the maximal score together with that score (Python's `max` keeps the
first of equal candidates, and only a strictly greater score replaces
the running best); returns `None` when `choices` is empty. -/
def extractOne (query : String) (choices : List String) :
    Option (String × Nat) :=
  match choices with
  | [] => none
  | c :: cs =>
    some (cs.foldl
      (fun best n =>
        if best.2 < token_set_ratio query n then (n, token_set_ratio query n)
        else best)
      (c, token_set_ratio query c))

/-- Source `find_closest_player_name` (5.py lines 184-189):
`best_match, score = process.extractOne(...)` followed by the threshold
test `score >= 80`.  When the roster is empty `extractOne` returns
`None` and the tuple unpacking raises `TypeError`, modelled as the
error branch. -/
def find_closest_player_name (transcript_name : String)
    (player_master_list : List String) : Except PyExc (Option String) :=
  match extractOne transcript_name player_master_list with
  | none => .error .typeError
  | some (best, score) =>
    if 80 ≤ score then .ok (some best) else .ok none

/-- The word loop of `correct_player_names` (5.py lines 222-231): a
title-cased word is replaced by the accepted fuzzy match when one
exists, every other word passes through; an exception raised by
`find_closest_player_name` aborts the loop. -/
def correctWords (roster : List String) :
    List String → Except PyExc (List String)
  | [] => .ok []
  | w :: ws =>
    if istitle w then
      match find_closest_player_name w roster with
      | .error e => .error e
      | .ok (some name) => (correctWords roster ws).map (fun t => name :: t)
      | .ok none => (correctWords roster ws).map (fun t => w :: t)
    else (correctWords roster ws).map (fun t => w :: t)

/-- Source `correct_player_names` (5.py lines 220-232): split the
transcript on whitespace, run the word loop, join the corrected words
with single spaces. -/
def correct_player_names (transcript : String)
    (player_master_list : List String) : Except PyExc String :=
  match correctWords player_master_list (pySplitStr transcript) with
  | .error e => .error e
  | .ok ws => .ok (joinWords ws)

/-- JSON values, as produced by Python's `json.load`: after parsing, an
object's keys are distinct (later duplicates overwrite earlier ones), so
an association list with unique keys models the resulting `dict`.
Numbers are rationals (covering the ints and the floats that occur). -/
inductive Json where
  | null
  | bool (b : Bool)
  | num (q : Rat)
  | str (s : String)
  | arr (elems : List Json)
  | obj (fields : List (String × Json))

/-- Python subscript `value[key]` with a string key: a `KeyError` on a
`dict` missing the key, a `TypeError` on every non-`dict` value. -/
def pySubscript (j : Json) (k : String) : Except PyExc Json :=
  match j with
  | .obj fields =>
    match fields.lookup k with
    | some v => .ok v
    | none => .error .keyError
  | _ => .error .typeError

/-- Coercion used by Python's `time.time() - x`: numbers and booleans
(`True` counts as 1) subtract fine, everything else raises `TypeError`. -/
def pyNum : Json → Except PyExc Rat
  | .num q => .ok q
  | .bool b => .ok (if b then 1 else 0)
  | _ => .error .typeError

/-- The state of the cache file as `_load_cache` can encounter it:
absent, present but not parseable as JSON (`json.load` raises
`JSONDecodeError`), or present with a parsed JSON value. -/
inductive CacheState where
  | absent
  | notJson
  | json (j : Json)

/-- The fetcher's freshness window, `24 * 60 * 60` seconds. -/
def cache_duration : Rat := 24 * 60 * 60

/-- Source `NBAPlayersFetcher._load_cache` (5.py lines 51-62), with the
current `time.time()` made explicit.  The `try` catches only
`json.JSONDecodeError`; the subscripts `cache['timestamp']` /
`cache['data']` and the subtraction raise uncaught `KeyError` /
`TypeError` when the parsed value has the wrong shape.  Returns the
cached `data` when the timestamp is fresh, `None` otherwise. -/
def _load_cache (now : Rat) (file : CacheState) : Except PyExc (Option Json) :=
  match file with
  | .absent => .ok none
  | .notJson => .ok none
  | .json cache =>
    match pySubscript cache "timestamp" with
    | .error e => .error e
    | .ok tsv =>
      match pyNum tsv with
      | .error e => .error e
      | .ok ts =>
        if now - ts < cache_duration then
          match pySubscript cache "data" with
          | .error e => .error e
          | .ok d => .ok (some d)
        else .ok none

/-- Python truthiness of a JSON value, for `if cached_data:`. -/
def pyTruthy : Json → Bool
  | .null => false
  | .bool b => b
  | .num q => q != 0
  | .str s => s != ""
  | .arr l => !l.isEmpty
  | .obj f => !f.isEmpty

/-- The empty roster `pd.DataFrame()` returned on total failure,
represented by its (empty) record list. -/
def emptyRoster : Json := .arr []

/-- A JSON value Python/pandas treats as a scalar (number, string,
boolean or `None`). -/
def jsonIsScalar : Json → Bool
  | .num _ => true
  | .str _ => true
  | .bool _ => true
  | .null => true
  | _ => false

/-- A list of record objects: the shape `_save_cache` writes
(`df.to_dict('records')` is a list of dicts), and the only list shape
the theorems below feed to the frame constructor. -/
def isRecordList : Json → Bool
  | .arr elems =>
    elems.all (fun e =>
      match e with
      | .obj _ => true
      | _ => false)
  | _ => false

/-- pandas `pd.DataFrame(data)` on the JSON shapes a cache file can
hold, by the constructor's top-level dispatch: `None` (the default)
gives the empty frame; a scalar number, string or boolean raises
`ValueError` ("DataFrame constructor not properly called!"); a list
becomes a frame of its rows — exact for lists of record objects, the
only list shape `_save_cache` ever writes and the only one any theorem
below reaches (pandas can additionally fail on heterogeneous lists
mixing records with scalars); a non-empty dict of all-scalar values
raises `ValueError` ("If using all scalar values, you must pass an
index"), other dicts are modelled as succeeding.  The returned JSON
value stands for the constructed frame's content. -/
def pd_DataFrame : Json → Except PyExc Json
  | .null => .ok (.arr [])
  | .num _ => .error .valueError
  | .str _ => .error .valueError
  | .bool _ => .error .valueError
  | .arr elems => .ok (.arr elems)
  | .obj fields =>
    if !fields.isEmpty && fields.all (fun kv => jsonIsScalar kv.2) then
      .error .valueError
    else .ok (.obj fields)

/-- Source `NBAPlayersFetcher.fetch_players` (5.py lines 73-134), with
the effects made explicit: `now` is the current time, `file` the cache
file's state, and `attempt` the outcome of the guarded `try` block
(request, parsing, filtering, `_save_cache` and the `DataFrame`
construction of line 115) — `Except.error ()` when any exception is
raised inside it, in which case the handlers catch it (the last one
catches every `Exception`).  The cache-hit paths (lines 87 and 132)
return `pd.DataFrame(cached_data)` and the final line returns
`pd.DataFrame()`; these and the cache-check calls to `_load_cache` run
outside any `try`, so their exceptions propagate to the caller. -/
def fetch_players (now : Rat) (file : CacheState)
    (attempt : Except Unit Json) (use_cache invalidate_cache : Bool) :
    Except PyExc Json :=
  let fallback : Except PyExc Json :=
    if use_cache then
      match _load_cache now file with
      | .error e => .error e
      | .ok (some d) => if pyTruthy d then pd_DataFrame d else .ok emptyRoster
      | .ok none => .ok emptyRoster
    else .ok emptyRoster
  let tryFetch : Except PyExc Json :=
    match attempt with
    | .ok df => .ok df
    | .error _ => fallback
  if use_cache && !invalidate_cache then
    match _load_cache now file with
    | .error e => .error e
    | .ok (some d) => if pyTruthy d then pd_DataFrame d else tryFetch
    | .ok none => tryFetch
  else tryFetch

/-- Source `NBAPlayersFetcher._get_current_season` (5.py lines 136-143),
with `datetime.now()`'s year and month made explicit:
October or later gives `f"{year}-{str(year + 1)[2:]}"`, otherwise
`f"{year - 1}-{str(year)[2:]}"` (Python's `[2:]` slice is `String.drop`
of two characters). -/
def _get_current_season (year month : Nat) : String :=
  if 10 ≤ month then
    toString year ++ "-" ++ (toString (year + 1)).drop 2
  else
    toString (year - 1) ++ "-" ++ (toString year).drop 2

/-- The first character, if any, is not whitespace. -/
def headOk (l : List Char) : Bool :=
  match l.head? with
  | some c => !pyIsSpace c
  | none => true

/-- The last character, if any, is not whitespace. -/
def lastOk : List Char → Bool
  | [] => true
  | [c] => !pyIsSpace c
  | _ :: c :: rest => lastOk (c :: rest)

/-- No two adjacent whitespace characters (no whitespace run longer than
one character). -/
def noAdjSpace : List Char → Bool
  | c :: d :: rest => !(pyIsSpace c && pyIsSpace d) && noAdjSpace (d :: rest)
  | _ => true

/-- Every whitespace character is a plain space and is not followed by
another whitespace character. -/
def goodRun : List Char → Bool
  | [] => true
  | [c] => !pyIsSpace c || c == ' '
  | c :: d :: rest =>
    (!pyIsSpace c || (c == ' ' && !pyIsSpace d)) && goodRun (d :: rest)

/-- Normalized-whitespace tail check: walking the characters with
`inWord` recording whether the previous character belonged to a word,
every whitespace character must be a single plain space following a word
character, and the string must end inside a word. -/
def normTail : List Char → Bool → Bool
  | [], inWord => inWord
  | c :: rest, inWord =>
    if pyIsSpace c then inWord && (c == ' ') && normTail rest false
    else normTail rest true

/-- A string has normalized whitespace when it is empty or consists of
words separated by single plain spaces, with no leading or trailing
whitespace.  On such strings, splitting on whitespace and rejoining with
single spaces is the identity. -/
def wsNormalized (l : List Char) : Bool := l.isEmpty || normTail l false

/-- Modelled from the spec: the title-case rule as the specification
words it — "first character uppercase, remainder lowercase".  Stated for
comparison with the source's actual guard `istitle`. -/
def specTitleRule (w : String) : Bool :=
  match w.data with
  | [] => false
  | c :: rest => c.isUpper && rest.all (fun d => d.isLower)

/-- The best (choice, score) pair of `extractOne`, defaulting to
`("", 0)` on an empty choice list (the default is never used under a
nonempty-roster hypothesis). -/
def extractBest (query : String) (choices : List String) : String × Nat :=
  (extractOne query choices).getD ("", 0)

/-- A roster name that keeps the corrector's output whitespace tidy:
nonempty, with no leading, trailing or doubled whitespace. -/
def goodName (s : String) : Bool :=
  !s.data.isEmpty && headOk s.data && lastOk s.data && noAdjSpace s.data

theorem headOk_nil : headOk [] = true := rfl

theorem headOk_cons (c : Char) (l : List Char) :
    headOk (c :: l) = !pyIsSpace c := rfl

theorem lastOk_cons_of_ne_nil (c : Char) (l : List Char) (h : l ≠ []) :
    lastOk (c :: l) = lastOk l := by
  cases l with
  | nil => exact absurd rfl h
  | cons d rest => rfl

theorem headOk_append_left (xs ys : List Char) (h : xs ≠ []) :
    headOk (xs ++ ys) = headOk xs := by
  cases xs with
  | nil => exact absurd rfl h
  | cons c rest => rfl

theorem lastOk_append_right (xs ys : List Char) (h : ys ≠ []) :
    lastOk (xs ++ ys) = lastOk ys := by
  induction xs with
  | nil => rfl
  | cons c rest ih =>
    have hne : rest ++ ys ≠ [] := by
      cases rest <;> simp_all
    rw [List.cons_append, lastOk_cons_of_ne_nil c (rest ++ ys) hne, ih]

theorem lastOk_append_single (l : List Char) (c : Char) :
    lastOk (l ++ [c]) = !pyIsSpace c := by
  rw [lastOk_append_right l [c] (by simp)]
  rfl

theorem headOk_reverse_of_lastOk (l : List Char) (h : lastOk l = true) :
    headOk l.reverse = true := by
  induction l with
  | nil => rfl
  | cons c rest ih =>
    cases rest with
    | nil => simpa [headOk, lastOk] using h
    | cons d rest2 =>
      rw [lastOk_cons_of_ne_nil c (d :: rest2) (by simp)] at h
      rw [List.reverse_cons,
        headOk_append_left _ [c] (by simp)]
      exact ih h

theorem lastOk_reverse_of_headOk (l : List Char) (h : headOk l = true) :
    lastOk l.reverse = true := by
  cases l with
  | nil => rfl
  | cons c rest =>
    rw [List.reverse_cons, lastOk_append_single]
    simpa [headOk] using h

theorem headOk_dropWhile (l : List Char) :
    headOk (l.dropWhile pyIsSpace) = true := by
  induction l with
  | nil => rfl
  | cons c rest ih =>
    by_cases h : pyIsSpace c = true
    · rw [List.dropWhile_cons_of_pos h]; exact ih
    · rw [List.dropWhile_cons_of_neg (by simp [h])]
      simpa [headOk] using h

theorem dropWhile_eq_self_of_headOk (l : List Char) (h : headOk l = true) :
    l.dropWhile pyIsSpace = l := by
  cases l with
  | nil => rfl
  | cons c rest =>
    exact List.dropWhile_cons_of_neg (by simp_all [headOk])

theorem headOk_reverse_dropWhile_reverse (v : List Char)
    (h : headOk v.reverse = true) :
    headOk (v.dropWhile pyIsSpace).reverse = true := by
  induction v with
  | nil => rfl
  | cons c rest ih =>
    by_cases hc : pyIsSpace c = true
    · rw [List.dropWhile_cons_of_pos hc]
      apply ih
      rw [List.reverse_cons] at h
      cases hr : rest.reverse with
      | nil => rfl
      | cons d r2 =>
        rw [hr, headOk_append_left _ [c] (by simp)] at h
        exact h
    · rw [List.dropWhile_cons_of_neg (by simp [hc])]
      exact h

theorem headOk_pyStrip (l : List Char) : headOk (pyStrip l) = true := by
  unfold pyStrip
  apply headOk_reverse_dropWhile_reverse
  rw [List.reverse_reverse]
  exact headOk_dropWhile l

theorem lastOk_pyStrip (l : List Char) : lastOk (pyStrip l) = true := by
  unfold pyStrip
  apply lastOk_reverse_of_headOk
  exact headOk_dropWhile _

theorem headOk_collapseAux_true (l : List Char) :
    headOk (collapseAux l true) = true := by
  induction l with
  | nil => rfl
  | cons c rest ih =>
    by_cases h : pyIsSpace c = true
    · simpa [collapseAux, h] using ih
    · simp [collapseAux, h, headOk]

theorem headOk_collapseAux_false (l : List Char) (h : headOk l = true) :
    headOk (collapseAux l false) = true := by
  cases l with
  | nil => rfl
  | cons c rest =>
    have hc : pyIsSpace c = false := by simpa [headOk] using h
    simp [collapseAux, hc, headOk]

theorem collapseAux_ne_nil (l : List Char) (b : Bool)
    (hl : lastOk l = true) (hne : l ≠ []) : collapseAux l b ≠ [] := by
  induction l generalizing b with
  | nil => exact absurd rfl hne
  | cons c rest ih =>
    cases rest with
    | nil =>
      have hc : pyIsSpace c = false := by simpa [lastOk] using hl
      simp [collapseAux, hc]
    | cons d rest2 =>
      rw [lastOk_cons_of_ne_nil c (d :: rest2) (by simp)] at hl
      by_cases hc : pyIsSpace c = true
      · cases b with
        | true => simpa [collapseAux, hc] using ih true hl (by simp)
        | false => simp [collapseAux, hc]
      · simp [collapseAux, hc]

theorem lastOk_collapseAux (l : List Char) (b : Bool)
    (hl : lastOk l = true) : lastOk (collapseAux l b) = true := by
  induction l generalizing b with
  | nil => rfl
  | cons c rest ih =>
    cases rest with
    | nil =>
      have hc : pyIsSpace c = false := by simpa [lastOk] using hl
      simp [collapseAux, hc, lastOk]
    | cons d rest2 =>
      rw [lastOk_cons_of_ne_nil c (d :: rest2) (by simp)] at hl
      by_cases hc : pyIsSpace c = true
      · cases b with
        | true => simpa [collapseAux, hc] using ih true hl
        | false =>
          have hne := collapseAux_ne_nil (d :: rest2) true hl (by simp)
          have h2 := ih true hl
          have h3 : collapseAux (c :: d :: rest2) false
              = ' ' :: collapseAux (d :: rest2) true := by
            simp [collapseAux, hc]
          rw [h3, lastOk_cons_of_ne_nil ' ' _ hne]
          exact h2
      · have hne := collapseAux_ne_nil (d :: rest2) false hl (by simp)
        have h2 := ih false hl
        have h3 : collapseAux (c :: d :: rest2) b
            = c :: collapseAux (d :: rest2) false := by
          simp [collapseAux, hc]
        rw [h3, lastOk_cons_of_ne_nil c _ hne]
        exact h2

theorem goodRun_tail (c : Char) (l : List Char)
    (h : goodRun (c :: l) = true) : goodRun l = true := by
  cases l with
  | nil => rfl
  | cons d rest => exact (Bool.and_eq_true_iff.mp h).2

theorem goodRun_cons_space (M : List Char) (h1 : headOk M = true)
    (h2 : goodRun M = true) : goodRun (' ' :: M) = true := by
  cases M with
  | nil => rfl
  | cons d rest =>
    have hd : pyIsSpace d = false := by simpa [headOk] using h1
    simp [goodRun, hd, h2]

theorem goodRun_cons_nonspace (c : Char) (M : List Char)
    (hc : pyIsSpace c = false) (h2 : goodRun M = true) :
    goodRun (c :: M) = true := by
  cases M with
  | nil => simp [goodRun, hc]
  | cons d rest => simp [goodRun, hc, h2]

theorem goodRun_collapseAux (l : List Char) (b : Bool) :
    goodRun (collapseAux l b) = true := by
  induction l generalizing b with
  | nil => rfl
  | cons c rest ih =>
    by_cases hc : pyIsSpace c = true
    · cases b with
      | true => simpa [collapseAux, hc] using ih true
      | false =>
        have h3 : collapseAux (c :: rest) false
            = ' ' :: collapseAux rest true := by simp [collapseAux, hc]
        rw [h3]
        exact goodRun_cons_space _ (headOk_collapseAux_true rest) (ih true)
    · have h3 : collapseAux (c :: rest) b
          = c :: collapseAux rest false := by simp [collapseAux, hc]
      rw [h3]
      exact goodRun_cons_nonspace c _ (by simpa using hc) (ih false)

theorem noAdjSpace_of_goodRun (l : List Char) (h : goodRun l = true) :
    noAdjSpace l = true := by
  induction l with
  | nil => rfl
  | cons c rest ih =>
    cases rest with
    | nil => rfl
    | cons d rest2 =>
      have h2 := ih (goodRun_tail c _ h)
      have h1 := (Bool.and_eq_true_iff.mp h).1
      refine Bool.and_eq_true_iff.mpr ⟨?_, h2⟩
      by_cases hc : pyIsSpace c = true
      · have : (c == ' ') = true ∧ pyIsSpace d = false := by
          simpa [hc] using h1
        simp [hc, this.2]
      · simp [hc]

theorem collapseAux_fix (l : List Char) (h : goodRun l = true) :
    collapseAux l false = l ∧
      (headOk l = true → collapseAux l true = l) := by
  induction l with
  | nil => exact ⟨rfl, fun _ => rfl⟩
  | cons c rest ih =>
    have hrest := ih (goodRun_tail c _ h)
    by_cases hc : pyIsSpace c = true
    · have hspec : (c == ' ') = true ∧ headOk rest = true := by
        cases rest with
        | nil => simpa [goodRun, hc, headOk] using h
        | cons d rest2 =>
          have h1 := (Bool.and_eq_true_iff.mp h).1
          have : (c == ' ') = true ∧ pyIsSpace d = false := by
            simpa [hc] using h1
          exact ⟨this.1, by simpa [headOk] using this.2⟩
      have hceq : c = ' ' := by simpa using hspec.1
      constructor
      · have h3 : collapseAux (c :: rest) false
            = ' ' :: collapseAux rest true := by simp [collapseAux, hc]
        rw [h3, hrest.2 hspec.2, hceq]
      · intro hh
        rw [headOk_cons, hceq] at hh
        simp [pyIsSpace] at hh
    · have h3 : ∀ b, collapseAux (c :: rest) b
          = c :: collapseAux rest false := by
        intro b; simp [collapseAux, hc]
      exact ⟨by rw [h3, hrest.1], fun _ => by rw [h3, hrest.1]⟩

theorem mem_collapseAux (l : List Char) (b : Bool) (c : Char)
    (h : c ∈ collapseAux l b) : c ∈ l ∨ c = ' ' := by
  induction l generalizing b with
  | nil => simp [collapseAux] at h
  | cons d rest ih =>
    by_cases hd : pyIsSpace d = true
    · cases b with
      | true =>
        rcases ih true (by simpa [collapseAux, hd] using h) with h1 | h1
        · exact Or.inl (List.mem_cons_of_mem d h1)
        · exact Or.inr h1
      | false =>
        have h3 : collapseAux (d :: rest) false
            = ' ' :: collapseAux rest true := by simp [collapseAux, hd]
        rw [h3, List.mem_cons] at h
        rcases h with h1 | h1
        · exact Or.inr h1
        · rcases ih true h1 with h2 | h2
          · exact Or.inl (List.mem_cons_of_mem d h2)
          · exact Or.inr h2
    · have h3 : collapseAux (d :: rest) b
          = d :: collapseAux rest false := by simp [collapseAux, hd]
      rw [h3, List.mem_cons] at h
      rcases h with h1 | h1
      · exact Or.inl (by simp [h1])
      · rcases ih false h1 with h2 | h2
        · exact Or.inl (List.mem_cons_of_mem d h2)
        · exact Or.inr h2

theorem mem_dropWhile_pyIsSpace (c : Char) (l : List Char)
    (h : c ∈ l.dropWhile pyIsSpace) : c ∈ l := by
  induction l with
  | nil => simp at h
  | cons d rest ih =>
    by_cases hd : pyIsSpace d = true
    · rw [List.dropWhile_cons_of_pos hd] at h
      exact List.mem_cons_of_mem d (ih h)
    · rwa [List.dropWhile_cons_of_neg (by simp [hd])] at h

theorem mem_pyStrip (c : Char) (l : List Char) (h : c ∈ pyStrip l) :
    c ∈ l := by
  unfold pyStrip at h
  rw [List.mem_reverse] at h
  have h2 := mem_dropWhile_pyIsSpace c _ h
  rw [List.mem_reverse] at h2
  exact mem_dropWhile_pyIsSpace c _ h2

theorem pyStrip_eq_self (l : List Char) (h1 : headOk l = true)
    (h2 : lastOk l = true) : pyStrip l = l := by
  unfold pyStrip
  rw [dropWhile_eq_self_of_headOk l h1,
    dropWhile_eq_self_of_headOk _ (headOk_reverse_of_lastOk l h2),
    List.reverse_reverse]

theorem string_eq_of_data (a b : String) (h : a.data = b.data) : a = b :=
  congrArg String.mk h

theorem removeNonAscii_collapse_strip (l : List Char)
    (h : ∀ c ∈ l, c.toNat ≤ 127) :
    removeNonAscii (collapseWS (pyStrip l)) = collapseWS (pyStrip l) := by
  apply List.filter_eq_self.mpr
  intro c hc
  rcases mem_collapseAux _ _ c hc with h1 | h1
  · have := h c (mem_pyStrip c l h1)
    simpa using this
  · subst h1; decide

theorem clean_transcript_data_ascii (x : String)
    (h : ∀ c ∈ x.data, c.toNat ≤ 127) :
    (clean_transcript x).data = collapseWS (pyStrip x.data) :=
  removeNonAscii_collapse_strip x.data h

theorem collapse_strip_headOk (l : List Char) :
    headOk (collapseWS (pyStrip l)) = true :=
  headOk_collapseAux_false _ (headOk_pyStrip l)

theorem collapse_strip_lastOk (l : List Char) :
    lastOk (collapseWS (pyStrip l)) = true :=
  lastOk_collapseAux _ _ (lastOk_pyStrip l)

theorem clean_transcript_fix (x : String)
    (h : ∀ c ∈ x.data, c.toNat ≤ 127) :
    clean_transcript (clean_transcript x) = clean_transcript x := by
  apply string_eq_of_data
  have hd := clean_transcript_data_ascii x h
  have hz : (clean_transcript (clean_transcript x)).data
      = removeNonAscii (collapseWS (pyStrip (clean_transcript x).data)) := rfl
  rw [hz, hd]
  rw [pyStrip_eq_self _ (collapse_strip_headOk x.data)
    (collapse_strip_lastOk x.data)]
  have hfix := (collapseAux_fix _ (goodRun_collapseAux (pyStrip x.data) false)).1
  show removeNonAscii (collapseAux (collapseAux (pyStrip x.data) false) false) = _
  rw [hfix]
  exact removeNonAscii_collapse_strip x.data h

theorem splitAux_ne_nil (l acc : List Char) (h : acc ≠ []) :
    splitAux l acc ≠ [] := by
  induction l generalizing acc with
  | nil =>
    have : acc.isEmpty = false := by simpa using h
    simp [splitAux, this]
  | cons c rest ih =>
    by_cases hc : pyIsSpace c = true
    · have : acc.isEmpty = false := by simpa using h
      simp [splitAux, hc, this]
    · have h3 : splitAux (c :: rest) acc = splitAux rest (c :: acc) := by
        simp [splitAux, hc]
      rw [h3]
      exact ih (c :: acc) (by simp)

theorem joinW_cons_cons (w d : List Char) (ws : List (List Char)) :
    joinW (w :: d :: ws) = w ++ ' ' :: joinW (d :: ws) := rfl

theorem joinW_splitAux (l : List Char) :
    (normTail l false = true → joinW (splitAux l []) = l) ∧
      (∀ acc, acc ≠ [] → normTail l true = true →
        joinW (splitAux l acc) = acc.reverse ++ l) := by
  induction l with
  | nil =>
    constructor
    · intro h; simp [normTail] at h
    · intro acc hacc _
      have : acc.isEmpty = false := by simpa using hacc
      simp [splitAux, this, joinW]
  | cons c rest ih =>
    constructor
    · intro h
      by_cases hc : pyIsSpace c = true
      · simp [normTail, hc] at h
      · have h2 : normTail rest true = true := by
          simpa [normTail, hc] using h
        have h3 : splitAux (c :: rest) [] = splitAux rest [c] := by
          simp [splitAux, hc]
        rw [h3, ih.2 [c] (by simp) h2]
        rfl
    · intro acc hacc h
      by_cases hc : pyIsSpace c = true
      · have h2 : (c == ' ') = true ∧ normTail rest false = true := by
          simpa [normTail, hc] using h
        have hceq : c = ' ' := by simpa using h2.1
        have hne : acc.isEmpty = false := by simpa using hacc
        have h3 : splitAux (c :: rest) acc
            = acc.reverse :: splitAux rest [] := by
          simp [splitAux, hc, hne]
        have hrest : rest ≠ [] := by
          intro hr; rw [hr] at h2; simp [normTail] at h2
        obtain ⟨d, r2, hdr⟩ := List.exists_cons_of_ne_nil hrest
        have hd : pyIsSpace d = false := by
          by_contra hds
          rw [hdr] at h2
          simp [normTail, eq_true_of_ne_false hds] at h2
        have hsne : splitAux rest [] ≠ [] := by
          rw [hdr]
          have : splitAux (d :: r2) [] = splitAux r2 [d] := by
            simp [splitAux, hd]
          rw [this]
          exact splitAux_ne_nil r2 [d] (by simp)
        obtain ⟨e, es, hes⟩ := List.exists_cons_of_ne_nil hsne
        rw [h3, hes, joinW_cons_cons]
        have h4 : joinW (splitAux rest []) = rest := ih.1 h2.2
        rw [hes] at h4
        rw [h4, hceq]
      · have h2 : normTail rest true = true := by
          simpa [normTail, hc] using h
        have h3 : splitAux (c :: rest) acc = splitAux rest (c :: acc) := by
          simp [splitAux, hc]
        rw [h3, ih.2 (c :: acc) (by simp) h2, List.reverse_cons,
          List.append_assoc]
        rfl

theorem joinW_split_of_normalized (l : List Char)
    (h : wsNormalized l = true) : joinW (splitAux l []) = l := by
  cases l with
  | nil => rfl
  | cons c rest =>
    have h2 : normTail (c :: rest) false = true := by
      simpa [wsNormalized] using h
    exact (joinW_splitAux (c :: rest)).1 h2

theorem joinWords_pySplitStr (s : String) :
    joinWords (pySplitStr s) = ⟨joinW (splitAux s.data [])⟩ := by
  unfold joinWords pySplitStr
  rw [List.map_map]
  have h : (String.data ∘ fun w : List Char => (⟨w⟩ : String)) = id := rfl
  rw [h, List.map_id]

theorem correctWords_all_pass (roster ws : List String)
    (h : ∀ w ∈ ws, istitle w = false) :
    correctWords roster ws = .ok ws := by
  induction ws with
  | nil => rfl
  | cons w rest ih =>
    have hw : istitle w = false := h w (by simp)
    have hr := ih (fun v hv => h v (List.mem_cons_of_mem w hv))
    simp [correctWords, hw, hr, Except.map]

theorem correctWords_nil_roster (ws : List String) :
    correctWords [] ws =
      if ws.all (fun w => !istitle w) then .ok ws
      else .error .typeError := by
  induction ws with
  | nil => rfl
  | cons w rest ih =>
    by_cases hw : istitle w = true
    · simp [correctWords, hw, find_closest_player_name, extractOne]
    · have hw2 : istitle w = false := by simpa using hw
      rw [List.all_cons]
      by_cases hr : rest.all (fun v => !istitle v) = true
      · rw [hr] at ih
        simp [correctWords, hw2, ih, hr, Except.map]
      · have hr2 : rest.all (fun v => !istitle v) = false := by simpa using hr
        rw [hr2] at ih
        simp [correctWords, hw2, ih, hr2, Except.map]

theorem pickFold_spec (q : String) (cs : List String) (p : String × Nat)
    (hp : token_set_ratio q p.1 = p.2) :
    let r := cs.foldl
      (fun best n =>
        if best.2 < token_set_ratio q n then (n, token_set_ratio q n)
        else best) p
    (r.1 = p.1 ∨ r.1 ∈ cs) ∧ token_set_ratio q r.1 = r.2 ∧ p.2 ≤ r.2 ∧
      ∀ n ∈ cs, token_set_ratio q n ≤ r.2 := by
  induction cs generalizing p with
  | nil => exact ⟨Or.inl rfl, hp, Nat.le_refl _, by simp⟩
  | cons n cs ih =>
    by_cases hlt : p.2 < token_set_ratio q n
    · have hstep := ih (n, token_set_ratio q n) rfl
      rw [List.foldl_cons]
      simp only [hlt, if_pos]
      refine ⟨?_, hstep.2.1, ?_, ?_⟩
      · rcases hstep.1 with h1 | h1
        · exact Or.inr (by simp [h1])
        · exact Or.inr (List.mem_cons_of_mem n h1)
      · exact Nat.le_trans (Nat.le_of_lt hlt) hstep.2.2.1
      · intro m hm
        rcases List.mem_cons.mp hm with h1 | h1
        · subst h1; exact hstep.2.2.1
        · exact hstep.2.2.2 m h1
    · have hstep := ih p hp
      rw [List.foldl_cons]
      simp only [hlt, if_neg, if_false]
      refine ⟨?_, hstep.2.1, hstep.2.2.1, ?_⟩
      · rcases hstep.1 with h1 | h1
        · exact Or.inl h1
        · exact Or.inr (List.mem_cons_of_mem n h1)
      · intro m hm
        rcases List.mem_cons.mp hm with h1 | h1
        · subst h1
          exact Nat.le_trans (Nat.le_of_not_lt hlt) hstep.2.2.1
        · exact hstep.2.2.2 m h1

theorem extractBest_spec (q c : String) (cs : List String) :
    (extractBest q (c :: cs)).1 ∈ c :: cs ∧
      token_set_ratio q (extractBest q (c :: cs)).1
        = (extractBest q (c :: cs)).2 ∧
      ∀ n ∈ c :: cs, token_set_ratio q n ≤ (extractBest q (c :: cs)).2 := by
  have hspec := pickFold_spec q cs (c, token_set_ratio q c) rfl
  have hbest : extractBest q (c :: cs)
      = cs.foldl
          (fun best n =>
            if best.2 < token_set_ratio q n then (n, token_set_ratio q n)
            else best) (c, token_set_ratio q c) := rfl
  rw [hbest]
  refine ⟨?_, hspec.2.1, ?_⟩
  · rcases hspec.1 with h1 | h1
    · rw [h1]; simp
    · exact List.mem_cons_of_mem c h1
  · intro n hn
    rcases List.mem_cons.mp hn with h1 | h1
    · subst h1; exact hspec.2.2.1
    · exact hspec.2.2.2 n h1

theorem extractOne_eq_best (q c : String) (cs : List String) :
    extractOne q (c :: cs) = some (extractBest q (c :: cs)) := rfl

theorem find_closest_mem (w : String) (roster : List String) (name : String)
    (h : find_closest_player_name w roster = .ok (some name)) :
    name ∈ roster := by
  cases roster with
  | nil => simp [find_closest_player_name, extractOne] at h
  | cons c cs =>
    rw [find_closest_player_name, extractOne_eq_best] at h
    by_cases hs : 80 ≤ (extractBest w (c :: cs)).2
    · simp only [hs, if_pos] at h
      have : name = (extractBest w (c :: cs)).1 := by
        have := (Except.ok.inj h)
        exact (Option.some.inj this).symm
      rw [this]
      exact (extractBest_spec w c cs).1
    · simp [hs] at h

theorem correctWords_cons_title (roster : List String) (w : String)
    (ws : List String) (h : istitle w = true) :
    correctWords roster (w :: ws) =
      match find_closest_player_name w roster with
      | .error e => .error e
      | .ok r => (correctWords roster ws).map (fun t => r.getD w :: t) := by
  rw [correctWords, if_pos h]
  cases find_closest_player_name w roster with
  | error e => rfl
  | ok r => cases r <;> rfl

theorem correctWords_cons_pass (roster : List String) (w : String)
    (ws : List String) (h : istitle w = false) :
    correctWords roster (w :: ws) =
      (correctWords roster ws).map (fun t => w :: t) := by
  rw [correctWords, if_neg (by simp [h])]

theorem correctWords_ok_shape (roster ws ws' : List String)
    (h : correctWords roster ws = .ok ws') :
    ws'.length = ws.length ∧ ∀ v ∈ ws', v ∈ ws ∨ v ∈ roster := by
  induction ws generalizing ws' with
  | nil =>
    have : ws' = [] := by
      simpa [correctWords] using (Except.ok.inj h).symm
    subst this
    simp
  | cons w rest ih =>
    by_cases hw : istitle w = true
    · rw [correctWords_cons_title roster w rest hw] at h
      cases hf : find_closest_player_name w roster with
      | error e => rw [hf] at h; exact absurd h (by simp)
      | ok r =>
        rw [hf] at h
        cases hr : correctWords roster rest with
        | error e => rw [hr] at h; exact absurd h (by simp [Except.map])
        | ok t =>
          rw [hr] at h
          have hws : ws' = r.getD w :: t := by
            simpa [Except.map] using (Except.ok.inj h).symm
          subst hws
          have ht := ih t hr
          refine ⟨by simp [ht.1], ?_⟩
          intro v hv
          rcases List.mem_cons.mp hv with h1 | h1
          · cases r with
            | none => exact Or.inl (by simp [h1])
            | some name =>
              right
              rw [h1]
              exact find_closest_mem w roster name hf
          · rcases (ht.2 v h1) with h2 | h2
            · exact Or.inl (List.mem_cons_of_mem w h2)
            · exact Or.inr h2
    · rw [correctWords_cons_pass roster w rest (by simpa using hw)] at h
      cases hr : correctWords roster rest with
      | error e => rw [hr] at h; exact absurd h (by simp [Except.map])
      | ok t =>
        rw [hr] at h
        have hws : ws' = w :: t := by
          simpa [Except.map] using (Except.ok.inj h).symm
        subst hws
        have ht := ih t hr
        refine ⟨by simp [ht.1], ?_⟩
        intro v hv
        rcases List.mem_cons.mp hv with h1 | h1
        · exact Or.inl (by simp [h1])
        · rcases (ht.2 v h1) with h2 | h2
          · exact Or.inl (List.mem_cons_of_mem w h2)
          · exact Or.inr h2

theorem splitAux_words (l : List Char) (acc : List Char)
    (hacc : ∀ c ∈ acc, pyIsSpace c = false) :
    ∀ w ∈ splitAux l acc, w ≠ [] ∧ ∀ c ∈ w, pyIsSpace c = false := by
  induction l generalizing acc with
  | nil =>
    intro w hw
    cases acc with
    | nil => simp [splitAux] at hw
    | cons a as =>
      have : w = (a :: as).reverse := by simpa [splitAux] using hw
      subst this
      exact ⟨by simp, fun c hc => hacc c (List.mem_reverse.mp hc)⟩
  | cons c rest ih =>
    intro w hw
    by_cases hc : pyIsSpace c = true
    · cases acc with
      | nil =>
        have : w ∈ splitAux rest [] := by simpa [splitAux, hc] using hw
        exact ih [] (by simp) w this
      | cons a as =>
        have hsplit : splitAux (c :: rest) (a :: as)
            = (a :: as).reverse :: splitAux rest [] := by
          simp [splitAux, hc]
        rw [hsplit, List.mem_cons] at hw
        rcases hw with h1 | h1
        · subst h1
          exact ⟨by simp, fun d hd => hacc d (List.mem_reverse.mp hd)⟩
        · exact ih [] (by simp) w h1
    · have hsplit : splitAux (c :: rest) acc = splitAux rest (c :: acc) := by
        simp [splitAux, hc]
      rw [hsplit] at hw
      refine ih (c :: acc) ?_ w hw
      intro d hd
      rcases List.mem_cons.mp hd with h1 | h1
      · rw [h1]; simpa using hc
      · exact hacc d h1

theorem noAdjSpace_tail (c : Char) (l : List Char)
    (h : noAdjSpace (c :: l) = true) : noAdjSpace l = true := by
  cases l with
  | nil => rfl
  | cons d rest => exact (Bool.and_eq_true_iff.mp h).2

theorem noAdjSpace_append_lastOk (w v : List Char)
    (hw : noAdjSpace w = true) (hlw : lastOk w = true)
    (hv : noAdjSpace v = true) : noAdjSpace (w ++ v) = true := by
  induction w with
  | nil => simpa using hv
  | cons c rest ih =>
    cases rest with
    | nil =>
      have hc : pyIsSpace c = false := by simpa [lastOk] using hlw
      cases v with
      | nil => rfl
      | cons d v2 =>
        refine Bool.and_eq_true_iff.mpr ⟨?_, hv⟩
        simp [hc]
    | cons d rest2 =>
      rw [lastOk_cons_of_ne_nil c (d :: rest2) (by simp)] at hlw
      have h2 := ih (noAdjSpace_tail c _ hw) hlw
      have h1 := (Bool.and_eq_true_iff.mp hw).1
      rw [List.cons_append]
      exact Bool.and_eq_true_iff.mpr ⟨by simpa using h1, h2⟩

theorem noAdjSpace_cons_space (J : List Char) (hJ : noAdjSpace J = true)
    (hh : headOk J = true) : noAdjSpace (' ' :: J) = true := by
  cases J with
  | nil => rfl
  | cons d J2 =>
    have hd : pyIsSpace d = false := by simpa [headOk] using hh
    refine Bool.and_eq_true_iff.mpr ⟨by simp [hd], hJ⟩

theorem joinW_ne_nil (w : List Char) (ws : List (List Char))
    (h : w ≠ []) : joinW (w :: ws) ≠ [] := by
  cases ws with
  | nil => simpa [joinW] using h
  | cons d ws2 =>
    rw [joinW_cons_cons]
    simp [h]

theorem joinW_props (ws : List (List Char))
    (h : ∀ w ∈ ws, w ≠ [] ∧ headOk w = true ∧ lastOk w = true ∧
      noAdjSpace w = true) :
    headOk (joinW ws) = true ∧ lastOk (joinW ws) = true ∧
      noAdjSpace (joinW ws) = true := by
  induction ws with
  | nil => exact ⟨rfl, rfl, rfl⟩
  | cons w rest ih =>
    have hw := h w (by simp)
    cases rest with
    | nil => exact ⟨hw.2.1, hw.2.2.1, hw.2.2.2⟩
    | cons d rest2 =>
      have hrest := ih (fun v hv => h v (List.mem_cons_of_mem w hv))
      have hd := h d (by simp)
      have hJne : joinW (d :: rest2) ≠ [] := joinW_ne_nil d rest2 hd.1
      rw [joinW_cons_cons]
      refine ⟨?_, ?_, ?_⟩
      · rw [headOk_append_left _ _ hw.1]
        exact hw.2.1
      · rw [lastOk_append_right _ _ (by simp),
          lastOk_cons_of_ne_nil ' ' _ hJne]
        exact hrest.2.1
      · exact noAdjSpace_append_lastOk w (' ' :: joinW (d :: rest2))
          hw.2.2.2 hw.2.2.1
          (noAdjSpace_cons_space _ hrest.2.2 hrest.1)

theorem isUpper_false_of_isLower (d : Char) (h : d.isLower = true) :
    d.isUpper = false := by
  simp only [Char.isLower, Bool.and_eq_true, decide_eq_true_eq] at h
  simp only [Char.isUpper, Bool.and_eq_false_iff, decide_eq_false_iff_not]
  right
  intro hle
  have h3 : (97 : UInt32).toNat ≤ d.val.toNat := h.1
  have h4 : d.val.toNat ≤ (90 : UInt32).toNat := hle
  have h5 : (97 : UInt32).toNat = 97 := rfl
  have h6 : (90 : UInt32).toNat = 90 := rfl
  omega

theorem istitleAux_all_lower (rest : List Char)
    (h : rest.all (fun d => d.isLower) = true) :
    istitleAux rest true true = true := by
  induction rest with
  | nil => rfl
  | cons d r ih =>
    rw [List.all_cons, Bool.and_eq_true_iff] at h
    have hup := isUpper_false_of_isLower d h.1
    simp [istitleAux, hup, h.1, ih h.2]

theorem istitle_of_specTitleRule (w : String)
    (h : specTitleRule w = true) : istitle w = true := by
  unfold specTitleRule at h
  unfold istitle
  cases hw : w.data with
  | nil => rw [hw] at h; simp at h
  | cons c rest =>
    rw [hw] at h
    rw [Bool.and_eq_true_iff] at h
    simp [istitleAux, h.1]
    exact istitleAux_all_lower rest h.2

/-- Claim C2 (counterexample): with an empty roster list, the corrector
does raise on the input text `"Hello"` — `extractOne` yields no result
and the tuple unpacking in `find_closest_player_name` raises a
`TypeError` — contradicting the claim that every call with an empty
roster returns the tokens unchanged without raising. -/
theorem c2_empty_roster_raises :
    correct_player_names "Hello" [] = .error .typeError := rfl

/-- Claim C2 (amended): with an empty roster list, the corrector
returns every token of the text unchanged (joined by single spaces)
when no token is title-cased; as soon as some token is title-cased, the
call raises a `TypeError` instead of returning. -/
theorem c2_empty_roster_behavior (text : String) :
    correct_player_names text [] =
      if (pySplitStr text).all (fun w => !istitle w) then
        .ok (joinWords (pySplitStr text))
      else .error .typeError := by
  unfold correct_player_names
  rw [correctWords_nil_roster]
  by_cases h : (pySplitStr text).all (fun w => !istitle w) = true
  · simp [h]
  · simp [Bool.eq_false_iff.mpr h]

/-- Claim C5 (counterexample): a cache file holding valid JSON of the
wrong shape — here the array `[]` — makes `_load_cache` raise a
`TypeError` (from `cache['timestamp']` on a non-dict) instead of
returning the absent result, contradicting the claim that `_load_cache`
never raises for any cache-file state. -/
theorem c5_load_cache_raises_on_wrong_shape :
    _load_cache 0 (.json (.arr [])) = .error .typeError := rfl

/-- Claim C5 (amended): `_load_cache` returns the absent result without
raising when the cache file is missing or its content fails JSON
parsing (`json.JSONDecodeError` is the only exception caught); valid
JSON of the wrong shape instead raises `KeyError`/`TypeError` to the
caller. -/
theorem c5_load_cache_soft_fail (now : Rat) (f : CacheState)
    (h : f = .absent ∨ f = .notJson) : _load_cache now f = .ok none := by
  rcases h with rfl | rfl <;> rfl

/-- Witness for C5's amended theorem at concrete inputs. -/
theorem c5_witness :
    _load_cache 12345 .absent = .ok none ∧
      _load_cache 12345 .notJson = .ok none :=
  ⟨c5_load_cache_soft_fail 12345 .absent (Or.inl rfl),
   c5_load_cache_soft_fail 12345 .notJson (Or.inr rfl)⟩

theorem load_fresh_envelope (now ts : Rat) (d : Json)
    (h : now - ts < cache_duration) :
    _load_cache now (.json (.obj [("timestamp", .num ts), ("data", d)]))
      = .ok (some d) := by
  unfold _load_cache pySubscript pyNum
  simp [List.lookup, h]

/-- Claim C6 (counterexample): two fetch-failure scenarios with
`use_cache=True`, `invalidate_cache=True` in which `fetch_players`
propagates an exception instead of returning a roster, contradicting
the claim.  A cache file holding the JSON array `[]` makes the fallback
`_load_cache` (outside the `try`) raise a `TypeError`; a well-formed
fresh envelope whose `data` is the scalar `42` loads fine but the
fallback's `pd.DataFrame(cached_data)` (also outside the `try`) raises
a `ValueError`. -/
theorem c6_fetch_players_propagates_cache_exception :
    fetch_players 0 (.json (.arr [])) (.error ()) true true
      = .error .typeError ∧
    fetch_players 0
      (.json (.obj [("timestamp", .num 0), ("data", .num 42)]))
      (.error ()) true true = .error .valueError := by
  refine ⟨rfl, ?_⟩
  unfold fetch_players
  rw [load_fresh_envelope 0 0 (.num 42) (by norm_num [cache_duration])]
  norm_num [pyTruthy, pd_DataFrame]

/-- Claim C6 (amended): on any fetch or parse failure `fetch_players`
returns a roster — cached data or the empty roster — and never an
exception, provided the cache state is benign: `_load_cache` returns
no data, or returns data that is either falsy (skipping the frame
construction) or a list of records, the only shape `_save_cache`
writes.  Outside that, the cache paths run outside any `try` and their
exceptions (`KeyError`/`TypeError` from `_load_cache`, `ValueError`
from `pd.DataFrame` on scalar data) propagate to the caller. -/
theorem c6_fetch_players_total_when_cache_wellformed (now : Rat)
    (f : CacheState) (attempt : Except Unit Json) (uc ic : Bool)
    (h : _load_cache now f = .ok none ∨
      ∃ d, _load_cache now f = .ok (some d) ∧
        (pyTruthy d = false ∨ isRecordList d = true)) :
    ∃ r, fetch_players now f attempt uc ic = .ok r := by
  unfold fetch_players
  rcases h with hv | ⟨d, hv, hd⟩
  · rw [hv]
    cases attempt with
    | ok df =>
      by_cases huc : (uc && !ic) = true <;> simp [huc]
    | error e =>
      by_cases huc : (uc && !ic) = true <;>
        cases uc <;> simp_all [hv]
  · rw [hv]
    rcases hd with ht2 | hrec
    · cases attempt with
      | ok df =>
        by_cases huc : (uc && !ic) = true <;> simp [huc, ht2]
      | error e =>
        by_cases huc : (uc && !ic) = true <;>
          cases uc <;> simp_all [hv, ht2]
    · obtain ⟨elems, rfl⟩ : ∃ elems, d = .arr elems := by
        cases d <;> simp [isRecordList] at hrec
        exact ⟨_, rfl⟩
      have hpd : pd_DataFrame (.arr elems) = .ok (.arr elems) := rfl
      by_cases ht : pyTruthy (.arr elems) = true
      · cases attempt with
        | ok df =>
          by_cases huc : (uc && !ic) = true <;> simp [huc, ht, hpd]
        | error e =>
          by_cases huc : (uc && !ic) = true <;>
            cases uc <;> simp_all [hv, ht, hpd]
      · have ht2 : pyTruthy (.arr elems) = false := by simpa using ht
        cases attempt with
        | ok df =>
          by_cases huc : (uc && !ic) = true <;> simp [huc, ht2]
        | error e =>
          by_cases huc : (uc && !ic) = true <;>
            cases uc <;> simp_all [hv, ht2]

/-- Witness for C6's amended theorem: an absent cache file, and a fresh
well-formed cache envelope holding one record. -/
theorem c6_witness :
    (∃ r, fetch_players 0 .absent (.error ()) true false = .ok r) ∧
    (∃ r, fetch_players 0
      (.json (.obj [("timestamp", .num 0),
        ("data", .arr [.obj [("full_name", .str "LeBron James")]])]))
      (.error ()) true true = .ok r) :=
  ⟨c6_fetch_players_total_when_cache_wellformed 0 .absent (.error ())
    true false (Or.inl rfl),
   c6_fetch_players_total_when_cache_wellformed 0
    (.json (.obj [("timestamp", .num 0),
      ("data", .arr [.obj [("full_name", .str "LeBron James")]])]))
    (.error ()) true true
    (Or.inr ⟨.arr [.obj [("full_name", .str "LeBron James")]],
      load_fresh_envelope 0 0 _ (by norm_num [cache_duration]),
      Or.inr rfl⟩)⟩

/-- Claim C7: the season label is the current year followed by the
two-digit suffix of the next year when the month is October or later,
and the previous year followed by the two-digit suffix of the current
year otherwise; in particular November 2023 gives "2023-24" and March
2024 gives "2023-24". -/
theorem c7_season_label :
    (∀ y m : Nat, 10 ≤ m →
      _get_current_season y m
        = toString y ++ "-" ++ (toString (y + 1)).drop 2) ∧
    (∀ y m : Nat, m < 10 →
      _get_current_season y m
        = toString (y - 1) ++ "-" ++ (toString y).drop 2) ∧
    _get_current_season 2023 11 = "2023-24" ∧
    _get_current_season 2024 3 = "2023-24" := by
  refine ⟨?_, ?_, rfl, rfl⟩
  · intro y m h
    simp [_get_current_season, h]
  · intro y m h
    simp [_get_current_season, Nat.not_le.mpr h]

/-- Witness for C7 at concrete dates (November 2023, March 2024). -/
theorem c7_witness :
    _get_current_season 2023 11
      = toString 2023 ++ "-" ++ (toString (2023 + 1)).drop 2 ∧
    _get_current_season 2024 3
      = toString (2024 - 1) ++ "-" ++ (toString 2024).drop 2 :=
  ⟨c7_season_label.1 2023 11 (by decide),
   c7_season_label.2.1 2024 3 (by decide)⟩

/-- Claim C3 (counterexample): `clean_transcript` is not idempotent.
On `"a é b"` cleaning once yields `"a  b"` (removing the non-ASCII
letter after whitespace collapsing leaves a double space), and cleaning
again collapses that double space, so the two results differ. -/
theorem c3_clean_not_idempotent :
    clean_transcript (clean_transcript "a é b")
      ≠ clean_transcript "a é b" := by decide

/-- Claim C3 (amended): `clean_transcript` is idempotent on every
string whose characters are all ASCII (code point at most 127); full
idempotence fails only because non-ASCII removal runs after whitespace
collapsing and can create fresh whitespace runs or boundary
whitespace. -/
theorem c3_clean_idempotent_on_ascii (x : String)
    (h : ∀ c ∈ x.data, c.toNat ≤ 127) :
    clean_transcript (clean_transcript x) = clean_transcript x :=
  clean_transcript_fix x h

/-- Witness for C3's amended theorem at a concrete ASCII input. -/
theorem c3_witness :
    clean_transcript (clean_transcript " a\t\tb c ")
      = clean_transcript " a\t\tb c " :=
  c3_clean_idempotent_on_ascii " a\t\tb c " (by decide)

/-- Claim C8 (counterexample): on `"a\x01 é b"` the cleaner's output is
`"a\x01  b"`, which contains the control character U+0001 (outside the
7-bit printable range) and a run of two spaces — contradicting both the
printable-range clause and the no-whitespace-run clause of the claim. -/
theorem c8_output_counterexample :
    clean_transcript "a\x01 é b" = "a\x01  b" ∧
    (clean_transcript "a\x01 é b").data.all
      (fun c => decide (0x20 ≤ c.toNat) && decide (c.toNat ≤ 0x7E))
      = false ∧
    noAdjSpace (clean_transcript "a\x01 é b").data = false := by
  refine ⟨by decide, by decide, by decide⟩

/-- Claim C8 (amended): every character of `clean_transcript`'s output
has code point at most 127 (all non-ASCII is removed, though ASCII
control characters below 0x20 that are not whitespace may remain); and
when the input is all-ASCII the output additionally has no leading or
trailing whitespace and no whitespace run longer than one character. -/
theorem c8_clean_output_properties (x : String) :
    (clean_transcript x).data.all (fun c => decide (c.toNat ≤ 127))
      = true ∧
    (x.data.all (fun c => decide (c.toNat ≤ 127)) = true →
      headOk (clean_transcript x).data = true ∧
      lastOk (clean_transcript x).data = true ∧
      noAdjSpace (clean_transcript x).data = true) := by
  constructor
  · rw [List.all_eq_true]
    intro c hc
    have hc2 : c ∈ (collapseWS (pyStrip x.data)).filter
        (fun c => c.toNat ≤ 0x7F) := hc
    have := List.of_mem_filter hc2
    simpa using this
  · intro h
    have h2 : ∀ c ∈ x.data, c.toNat ≤ 127 := by
      intro c hc
      exact of_decide_eq_true (List.all_eq_true.mp h c hc)
    have hd := clean_transcript_data_ascii x h2
    rw [hd]
    exact ⟨collapse_strip_headOk x.data, collapse_strip_lastOk x.data,
      noAdjSpace_of_goodRun _ (goodRun_collapseAux _ false)⟩

/-- Witness for C8's theorem at a concrete input with messy internal
whitespace. -/
theorem c8_witness :
    (clean_transcript " a\t\tb c ").data.all
      (fun c => decide (c.toNat ≤ 127)) = true ∧
    headOk (clean_transcript " a\t\tb c ").data = true ∧
    lastOk (clean_transcript " a\t\tb c ").data = true ∧
    noAdjSpace (clean_transcript " a\t\tb c ").data = true :=
  ⟨(c8_clean_output_properties " a\t\tb c ").1,
   (c8_clean_output_properties " a\t\tb c ").2 (by decide)⟩

/-- Claim C9 (counterexample): on the text `"a  b"`, which contains no
title-cased token, the corrector returns `"a b"`, not the text
unchanged — the corrector itself normalizes whitespace through its
split-and-rejoin, beyond what the cleaner does. -/
theorem c9_whitespace_normalization_counterexample :
    (pySplitStr "a  b").all (fun w => !istitle w) = true ∧
    correct_player_names "a  b" [] = .ok "a b" ∧
    ("a b" : String) ≠ "a  b" := by
  refine ⟨by decide, rfl, by decide⟩

/-- Claim C9 (amended): for every text with no title-cased token and
every roster, the corrector returns the text's tokens unchanged, joined
by single spaces; the text itself is returned unchanged exactly when
its whitespace is already normalized (single plain spaces, no leading
or trailing whitespace) — the corrector's own split-and-rejoin is what
normalizes otherwise. -/
theorem c9_no_title_tokens_pass_through (text : String)
    (roster : List String)
    (h : ∀ w ∈ pySplitStr text, istitle w = false) :
    correct_player_names text roster
      = .ok (joinWords (pySplitStr text)) ∧
    (wsNormalized text.data = true →
      correct_player_names text roster = .ok text) := by
  have hcw := correctWords_all_pass roster (pySplitStr text) h
  constructor
  · unfold correct_player_names
    rw [hcw]
  · intro hn
    unfold correct_player_names
    rw [hcw]
    have hj : joinWords (pySplitStr text) = text := by
      rw [joinWords_pySplitStr, joinW_split_of_normalized text.data hn]
    show Except.ok (joinWords (pySplitStr text)) = Except.ok text
    rw [hj]

/-- Witness for C9's theorem at a concrete normalized input. -/
theorem c9_witness :
    correct_player_names "hello there world" ["LeBron James"]
      = .ok "hello there world" :=
  (c9_no_title_tokens_pass_through "hello there world" ["LeBron James"]
    (by decide)).2 (by decide)

/-- Claim C4 (counterexample): the token `"D'Angelo"` does not satisfy
the claimed rule (its remainder contains the upper-case letter `A`),
yet Python's `istitle` accepts it, the corrector attempts a match and
replaces it by `"D'Angelo Russell"` — it is not passed through
unchanged, refuting the claimed iff. -/
theorem c4_spec_rule_counterexample :
    istitle "D'Angelo" = true ∧
    specTitleRule "D'Angelo" = false ∧
    correct_player_names "D'Angelo" ["D'Angelo Russell"]
      = .ok "D'Angelo Russell" ∧
    ("D'Angelo Russell" : String) ≠ "D'Angelo" := by
  exact ⟨by decide, by decide, rfl, by decide⟩

/-- Claim C4 (amended): a fuzzy roster match is attempted for a token
exactly when Python's `str.istitle` accepts it (upper-case letters only
after uncased characters, lower-case letters only after cased ones, at
least one cased character) — a strictly weaker guard than the claimed
"first character uppercase, remainder lowercase", which implies it;
every non-`istitle` token passes through unchanged. -/
theorem c4_istitle_guard (roster : List String) (w : String)
    (ws : List String) :
    (istitle w = false → correctWords roster (w :: ws)
      = (correctWords roster ws).map (fun t => w :: t)) ∧
    (istitle w = true → correctWords roster (w :: ws)
      = match find_closest_player_name w roster with
        | .error e => .error e
        | .ok r => (correctWords roster ws).map (fun t => r.getD w :: t)) ∧
    (specTitleRule w = true → istitle w = true) :=
  ⟨fun h => correctWords_cons_pass roster w ws h,
   fun h => correctWords_cons_title roster w ws h,
   istitle_of_specTitleRule w⟩

/-- Witness for C4's theorem: a non-title token passes through, and a
token satisfying the spec's rule is accepted by the actual guard. -/
theorem c4_witness :
    correctWords ["LeBron James"] ["hello"]
      = (correctWords ["LeBron James"] []).map (fun t => "hello" :: t) ∧
    istitle "Abc" = true :=
  ⟨(c4_istitle_guard ["LeBron James"] "hello" []).1 (by decide),
   (c4_istitle_guard [] "Abc" []).2.2 (by decide)⟩

theorem spaceFree_props (w : List Char)
    (h : ∀ c ∈ w, pyIsSpace c = false) :
    headOk w = true ∧ lastOk w = true ∧ noAdjSpace w = true := by
  refine ⟨?_, ?_, ?_⟩
  · cases w with
    | nil => rfl
    | cons c rest => simp [headOk, h c (by simp)]
  · induction w with
    | nil => rfl
    | cons c rest ih =>
      cases rest with
      | nil => simp [lastOk, h c (by simp)]
      | cons d rest2 =>
        rw [lastOk_cons_of_ne_nil c (d :: rest2) (by simp)]
        exact ih (fun e he => h e (List.mem_cons_of_mem c he))
  · induction w with
    | nil => rfl
    | cons c rest ih =>
      cases rest with
      | nil => rfl
      | cons d rest2 =>
        refine Bool.and_eq_true_iff.mpr ⟨?_, ?_⟩
        · simp [h c (by simp)]
        · exact ih (fun e he => h e (List.mem_cons_of_mem c he))

/-- Claim C1: for every title-cased token and nonempty roster, the
corrector's match is a roster name of maximal token-set-ratio score
against the token, and the token is replaced by it exactly when that
best score is at least 80, otherwise kept; in particular, with the
roster `["LeBron James"]` the token `"Lebron"` is replaced by
`"LeBron James"`. -/
theorem c1_title_token_replacement :
    (∀ (w : String) (roster ws : List String), roster ≠ [] →
      istitle w = true →
      (extractBest w roster).1 ∈ roster ∧
      token_set_ratio w (extractBest w roster).1
        = (extractBest w roster).2 ∧
      (∀ n ∈ roster, token_set_ratio w n ≤ (extractBest w roster).2) ∧
      correctWords roster (w :: ws) =
        (correctWords roster ws).map
          (fun t =>
            (if 80 ≤ (extractBest w roster).2 then (extractBest w roster).1
             else w) :: t)) ∧
    correct_player_names "Lebron" ["LeBron James"]
      = .ok "LeBron James" := by
  constructor
  · intro w roster ws hne ht
    obtain ⟨c, cs, rfl⟩ := List.exists_cons_of_ne_nil hne
    have hspec := extractBest_spec w c cs
    refine ⟨hspec.1, hspec.2.1, hspec.2.2, ?_⟩
    rw [correctWords_cons_title _ _ _ ht]
    rw [find_closest_player_name, extractOne_eq_best]
    by_cases hs : 80 ≤ (extractBest w (c :: cs)).2
    · simp [hs]
    · simp [hs]
  · rfl

/-- Witness for C1 at the roster `["LeBron James"]` and token
`"Lebron"`: the chosen name is in the roster and the word loop replaces
the token by the best name (its score reaching the threshold). -/
theorem c1_witness :
    (extractBest "Lebron" ["LeBron James"]).1
      ∈ (["LeBron James"] : List String) ∧
    correctWords ["LeBron James"] ["Lebron"] =
      (correctWords ["LeBron James"] []).map
        (fun t =>
          (if 80 ≤ (extractBest "Lebron" ["LeBron James"]).2 then
            (extractBest "Lebron" ["LeBron James"]).1
           else "Lebron") :: t) := by
  have h := c1_title_token_replacement.1 "Lebron" ["LeBron James"] []
    (by decide) (by decide)
  exact ⟨h.1, h.2.2.2⟩

/-- Claim C10 (counterexample): with the adversarial roster `[" x"]`
(a name with leading whitespace), the title-cased token `"X"` scores
100 and is replaced by `" x"`, so the corrector's output `" x"` begins
with whitespace — refuting the claim that the output never has leading
or trailing whitespace or consecutive spaces. -/
theorem c10_bad_roster_name_counterexample :
    correct_player_names "X" [" x"] = .ok " x" ∧
    headOk (" x" : String).data = false := by
  exact ⟨rfl, by decide⟩

/-- Claim C10 (amended): the corrector produces exactly one output
token per input whitespace-delimited token and joins them with single
spaces; provided every roster name is nonempty with no leading,
trailing or doubled whitespace, the output has no leading or trailing
whitespace and no two consecutive whitespace characters (a replaced
token may still contain single internal spaces). -/
theorem c10_output_shape (text : String) (roster : List String)
    (out : String) (hg : roster.all goodName = true)
    (h : correct_player_names text roster = .ok out) :
    (∃ ws, correctWords roster (pySplitStr text) = .ok ws ∧
      ws.length = (pySplitStr text).length ∧ out = joinWords ws) ∧
    headOk out.data = true ∧ lastOk out.data = true ∧
    noAdjSpace out.data = true := by
  unfold correct_player_names at h
  cases hcw : correctWords roster (pySplitStr text) with
  | error e => rw [hcw] at h; exact absurd h (by simp)
  | ok ws =>
    rw [hcw] at h
    have hout : out = joinWords ws := (Except.ok.inj h).symm
    have hshape := correctWords_ok_shape roster (pySplitStr text) ws hcw
    refine ⟨⟨ws, rfl, hshape.1, hout⟩, ?_⟩
    subst hout
    have hprops : ∀ u ∈ ws.map String.data, u ≠ [] ∧ headOk u = true ∧
        lastOk u = true ∧ noAdjSpace u = true := by
      intro u hu
      rw [List.mem_map] at hu
      obtain ⟨v, hv, rfl⟩ := hu
      rcases hshape.2 v hv with hmem | hmem
      · rw [pySplitStr, List.mem_map] at hmem
        obtain ⟨w, hw, rfl⟩ := hmem
        have hword := splitAux_words text.data [] (by simp) w hw
        have hfree := spaceFree_props w hword.2
        exact ⟨hword.1, hfree.1, hfree.2.1, hfree.2.2⟩
      · have hgood := List.all_eq_true.mp hg v hmem
        unfold goodName at hgood
        simp only [Bool.and_eq_true] at hgood
        refine ⟨?_, hgood.1.1.2, hgood.1.2, hgood.2⟩
        simpa using hgood.1.1.1
    have hjp := joinW_props (ws.map String.data) hprops
    exact ⟨hjp.1, hjp.2.1, hjp.2.2⟩

/-- Witness for C10's theorem at a concrete text and roster. -/
theorem c10_witness :
    headOk ("LeBron James drops 40" : String).data = true ∧
    lastOk ("LeBron James drops 40" : String).data = true ∧
    noAdjSpace ("LeBron James drops 40" : String).data = true :=
  (c10_output_shape "Lebron drops 40" ["LeBron James"]
    "LeBron James drops 40" (by decide) rfl).2
